import Mathlib

/-!
Shallow embedding of the preprocess-eda-ppg pipeline
(`src/ppg-process_vi.py`, `src/eda-process.py`, `src/ppg-process.py`,
`src/Concat_code/Combined_eapg.py`).

Timestamps and signal values are modelled as rationals (the Python code
works in float64 seconds; no claim under scrutiny depends on rounding).
Missing values (`NaN` / `NaT`) are modelled as `none : Option ℚ`.
Library calls (`pandas`, `numpy`) are modelled by their documented
semantics at the call sites the source uses.
-/

namespace PPG

/-! ### Timestamp Normalizer (`process_timestamp`, ppg-process_vi.py lines 25-38)

A raw `LocalTimestamp` cell is either a numeric epoch-seconds value or some
non-numeric content.  `pd.to_datetime(..., unit='s', errors='coerce')` maps
numeric cells to an instant and non-numeric cells to `NaT`;
`tz_localize('UTC').tz_convert('Asia/Bangkok')` then re-expresses the instant
as UTC+7 wall-clock (Asia/Bangkok has a fixed +07:00 offset, no DST).
We represent the resulting `DateTime` as wall-clock seconds.  The function
keeps every row (it only prints a warning when some cell failed) and performs
no sorting. -/

inductive RawCell where
  | num (q : ℚ)
  | other (s : String)
deriving DecidableEq

/-- Asia/Bangkok is UTC+07:00, constant over the year. -/
def bangkokOffset : ℚ := 25200

/-- Semantics of `pd.to_datetime(x, unit='s', errors='coerce')` on one cell. -/
def toDatetimeCoerce : RawCell → Option ℚ
  | .num q => some q
  | .other _ => none

/-- Model of `process_timestamp` (ppg-process_vi.py): each row gains a `DateTime`
field; rows with a non-numeric epoch keep an undefined `DateTime`; row order
is unchanged. -/
def process_timestamp (rows : List RawCell) : List (RawCell × Option ℚ) :=
  rows.map (fun c => (c, (toDatetimeCoerce c).map (fun t => t + bangkokOffset)))

/-! ### Beat-Interval Extractor (ppg-process_vi.py lines 113-156) -/

/-- Semantics of `np.where(peaks == 1)[0]`: indices where the mask is true, in order. -/
def trueIndices (mask : List Bool) : List ℕ :=
  mask.enum.filterMap (fun p => if p.2 then some p.1 else none)

/-- Semantics of `np.diff` on a list of indices (successor minus predecessor, in ℤ). -/
def diffInt : List ℕ → List ℤ
  | a :: b :: rest => ((b : ℤ) - (a : ℤ)) :: diffInt (b :: rest)
  | _ => []

/-- Model of `np.diff(peak_indices) / SAMPLING_RATE` (line 156): the RR intervals in
seconds derived from a peak mask and a sampling rate. -/
def rr_intervals (mask : List Bool) (rate : ℚ) : List ℚ :=
  (diffInt (trueIndices mask)).map (fun (d : ℤ) => (d : ℚ) / rate)

/-- A peak mask of 401 samples with peaks at indices 0, 100, 250, 400. -/
def mask401 : List Bool :=
  (List.range 401).map (fun i => i == 0 || i == 100 || i == 250 || i == 400)

/-! ### Time-domain statistics (ppg-process_vi.py lines 192-196)

`np.mean`, `np.std` (population, `ddof=0`) and the RMSSD expression
`sqrt(mean(diff(window_rr)**2))`.  The code's RMSSD and SDNN apply
`np.sqrt` to `rmssdSq` resp. `varianceP`; since the square root is applied
identically to the same nonnegative quantity on the code side and on the
spec side, the statements below compare the squared statistics. -/

/-- Semantics of `np.mean` (the empty case is never hit under the gates of the source). -/
def mean (l : List ℚ) : ℚ := l.sum / l.length

/-- Semantics of `np.diff` on rationals. -/
def diffQ : List ℚ → List ℚ
  | a :: b :: rest => (b - a) :: diffQ (b :: rest)
  | _ => []

/-- Square of the code's RMSSD: `mean(np.diff(window_rr) ** 2)`. -/
def rmssdSq (l : List ℚ) : ℚ := mean ((diffQ l).map (fun d => d ^ 2))

/-- Square of `np.std` (population variance, `ddof=0`). -/
def varianceP (l : List ℚ) : ℚ := mean (l.map (fun x => (x - mean l) ^ 2))

/-! ### Rolling-window HRV (ppg-process_vi.py lines 153-200)

`rr` is the `rr_df` dataframe: pairs `(RR interval, DateTime of the second
peak)`.  The mask at line 187 is `(rr_df['DateTime'] >= window_start) &
(rr_df['DateTime'] <= window_end)` — both bounds inclusive. -/

/-- The RR intervals whose second-peak time lies in the closed window
`[t - W/2, t + W/2]` (lines 183-188). -/
def windowSelect (rr : List (ℚ × ℚ)) (t W : ℚ) : List ℚ :=
  (rr.filter (fun p => t - W / 2 ≤ p.2 && p.2 ≤ t + W / 2)).map Prod.fst

/-- Rolling evaluation at one sample time `t` (lines 183-196): the triple
`(RR_Mean, RMSSD², SDNN²)`, each `none` when the gate `len(window_rr) > 5`
fails; the middle component also carries the source's inner
`if len(window_rr) > 1` conditional. -/
def rollingAt (rr : List (ℚ × ℚ)) (t : ℚ) : Option ℚ × Option ℚ × Option ℚ :=
  let w := windowSelect rr t 300
  if 5 < w.length then
    (some (mean w), if 1 < w.length then some (rmssdSq w) else none,
      some (varianceP w))
  else (none, none, none)

/-! ### Model of `pandas.Series.interpolate(method='linear')` (ppg-process_vi.py lines 198-200)

Modelled from the documented default semantics of the pandas call the source
makes (`method='linear'`, default `limit_direction='forward'`,
`limit_area=None`, on a default `RangeIndex`): defined entries are kept;
a missing entry with defined neighbours on both sides is filled by linear
interpolation on positions; missing entries before the first defined entry
stay missing; missing entries after the last defined entry are filled with
the last defined value. -/

/-- Largest index `j < i` whose entry is defined, with its value. -/
def lastDefinedBefore (l : List (Option ℚ)) : ℕ → Option (ℕ × ℚ)
  | 0 => none
  | i + 1 =>
    match l.getD i none with
    | some v => some (i, v)
    | none => lastDefinedBefore l i

/-- First defined entry of a list, with its offset. -/
def firstDefinedIdx : List (Option ℚ) → Option (ℕ × ℚ)
  | [] => none
  | some v :: _ => some (0, v)
  | none :: rest =>
    match firstDefinedIdx rest with
    | some (k, v) => some (k + 1, v)
    | none => none

/-- Smallest index `k ≥ i` whose entry is defined, with its value. -/
def findDefinedFrom (l : List (Option ℚ)) (i : ℕ) : Option (ℕ × ℚ) :=
  match firstDefinedIdx (l.drop i) with
  | some (k, v) => some (i + k, v)
  | none => none

/-- Semantics of `Series.interpolate(method='linear')` with pandas defaults. -/
def interpolateLinear (l : List (Option ℚ)) : List (Option ℚ) :=
  (List.range l.length).map (fun i =>
    match l.getD i none with
    | some v => some v
    | none =>
      match lastDefinedBefore l i with
      | none => none
      | some (j, vj) =>
        match findDefinedFrom l (i + 1) with
        | some (k, vk) =>
          some (vj + (vk - vj) * ((i : ℚ) - (j : ℚ)) / ((k : ℚ) - (j : ℚ)))
        | none => some vj)

/-! ### The rolling-HRV portion of `process_ppg_file` (ppg-process_vi.py lines 128-208) -/

/-- Model of `rr_df` (lines 159-162): RR intervals (at `SAMPLING_RATE = 100`) paired
with the `DateTime` of each interval's second peak,
`data['DateTime'].iloc[peak_indices[1:]]`. -/
def rrDF (peakIdx : List ℕ) (times : List ℚ) : List (ℚ × ℚ) :=
  ((diffInt peakIdx).map (fun (d : ℤ) => (d : ℚ) / 100)).zip
    ((peakIdx.drop 1).map (fun i => times.getD i 0))

/-- Lines 174-178: all sample indices, or `np.arange(0, n, 100)` when the
recording exceeds 10000 samples. -/
def sampleIndices (n : ℕ) : List ℕ :=
  if 10000 < n then (List.range ((n + 99) / 100)).map (· * 100)
  else List.range n

/-- Lines 169-196: the three rolling columns before interpolation — `NaN`
everywhere except at the evaluated sample indices, where `rollingAt` writes
the gated window statistics. -/
def rollingPass (rr : List (ℚ × ℚ)) (times : List ℚ) :
    List (Option ℚ × Option ℚ × Option ℚ) :=
  (List.range times.length).map (fun i =>
    if i ∈ sampleIndices times.length then rollingAt rr (times.getD i 0)
    else (none, none, none))

/-- Lines 128-208: the per-sample columns `RR_Mean`, `RMSSD`, `SDNN`
produced by `process_ppg_file` (RMSSD and SDNN squared, cf. `rmssdSq`).
The outer gate is `len(peak_indices) > 10`; the inner one
`len(peak_indices) > 2` (its else branch, unreachable under the outer gate,
leaves the three columns absent — modelled as all-undefined columns).
Below the outer gate the source sets the three columns to `NaN` outright
(lines 202-208) and never interpolates them. -/
def rollingMetrics (peakIdx : List ℕ) (times : List ℚ) :
    List (Option ℚ) × List (Option ℚ) × List (Option ℚ) :=
  let n := times.length
  if 10 < peakIdx.length then
    if 2 < peakIdx.length then
      let p := rollingPass (rrDF peakIdx times) times
      (interpolateLinear (p.map Prod.fst),
       interpolateLinear (p.map (fun x => x.2.1)),
       interpolateLinear (p.map (fun x => x.2.2)))
    else (List.replicate n none, List.replicate n none, List.replicate n none)
  else (List.replicate n none, List.replicate n none, List.replicate n none)

/-- The ten frequency/global metric names of line 140-141. -/
def freqMetricNames : List String :=
  ["HRV_ULF", "HRV_VLF", "HRV_LF", "HRV_HF", "HRV_VHF", "HRV_TP",
   "HRV_LFHF", "HRV_LFn", "HRV_HFn", "HRV_LnHF"]

/-- The thirteen metric names set in the insufficient-peaks branch
(lines 204-206). -/
def hrvMetricNames13 : List String :=
  freqMetricNames ++ ["RR_Mean", "RMSSD", "SDNN"]

/-- Lines 129-151 and 201-208: the global HRV columns of the output.
`computed` stands for the opaque per-metric result of the external
`nk.hrv_*` calls (already `none` when `neurokit2` omits a metric, cf. the
`if metric not in processed_data.columns` fallback of lines 148-151).
Above the gate the ten frequency metrics are taken from `computed`;
at or below 10 peaks all thirteen metrics are present and undefined. -/
def globalGateColumns (peakCount : ℕ) (computed : String → Option ℚ) :
    List (String × Option ℚ) :=
  if 10 < peakCount then freqMetricNames.map (fun m => (m, computed m))
  else hrvMetricNames13.map (fun m => (m, none))

/-! ### Cadence Resampler (eda-process.py lines 85-104; ppg-process_vi.py lines 211-224)

A stream is a `DateTime` column (seconds) plus named columns that are either
numeric (`float`, entries possibly `NaN`) or object-typed (strings).  The
source partitions the columns with `select_dtypes` — by dtype, not by name —
resamples the numeric part with `resample('1s').mean()` (one bucket per
whole second from the floor of the first to the floor of the last timestamp,
`NaN`-skipping mean, empty buckets `NaN`), and then runs
`pd.concat([resampled_data, object_cols], axis=1)`.

`object_cols` was taken *before* `set_index('DateTime')`, so it still
carries the original integer row index while `resampled_data` carries the
per-second `DatetimeIndex`.  `pd.concat(axis=1)` outer-joins on the row
index; the two indexes are disjoint, so the result is the bucket rows (with
the object columns undefined) followed by one row per original sample (with
every numeric column undefined).  Output rows are therefore indexed by
`ℤ ⊕ ℕ`: `inl` a whole-second bucket, `inr` an original positional index.
Finally the subject-label loop (`signals[key] = value`) broadcasts each
label value to every row of the concatenated frame. -/

inductive ColVals where
  | num (vals : List (Option ℚ))
  | obj (vals : List String)
deriving DecidableEq

structure Table where
  times : List ℚ
  cols : List (String × ColVals)

/-- Semantics of `select_dtypes(include=['number'])`. -/
def numCols (t : Table) : List (String × List (Option ℚ)) :=
  t.cols.filterMap (fun c =>
    match c.2 with
    | .num vs => some (c.1, vs)
    | .obj _ => none)

/-- Semantics of `select_dtypes(include=['object'])`. -/
def objCols (t : Table) : List (String × List String) :=
  t.cols.filterMap (fun c =>
    match c.2 with
    | .obj vs => some (c.1, vs)
    | .num _ => none)

def listMinD (l : List ℚ) (d : ℚ) : ℚ :=
  match l with
  | [] => d
  | x :: xs => xs.foldl min x

def listMaxD (l : List ℚ) (d : ℚ) : ℚ :=
  match l with
  | [] => d
  | x :: xs => xs.foldl max x

/-- The whole-second buckets of `resample('1s')`: every second from the
floor of the earliest to the floor of the latest timestamp. -/
def secondsRange (times : List ℚ) : List ℤ :=
  match times with
  | [] => []
  | _ =>
    let lo := ⌊listMinD times 0⌋
    let hi := ⌊listMaxD times 0⌋
    (List.range (hi - lo + 1).toNat).map (fun k => lo + (k : ℤ))

/-- Semantics of `.mean()` of one numeric column over one bucket: the `NaN`-skipping mean
of the entries whose timestamp falls in second `s`; `NaN` when no defined
entry contributes. -/
def bucketMean (times : List ℚ) (vals : List (Option ℚ)) (s : ℤ) : Option ℚ :=
  let xs := ((times.zip vals).filter (fun p => ⌊p.1⌋ == s)).filterMap Prod.snd
  if xs.isEmpty then none else some (mean xs)

/-- One row of the concatenated output frame. -/
structure RowOut where
  idx : ℤ ⊕ ℕ
  nums : List (String × Option ℚ)
  objs : List (String × Option String)
deriving DecidableEq

/-- Semantics of `signals[key] = value` on an object column: overwrite the column if
present, else append it, on this row. -/
def setCol (cols : List (String × Option String)) (k v : String) :
    List (String × Option String) :=
  if cols.any (fun c => c.1 == k) then
    cols.map (fun c => if c.1 == k then (c.1, some v) else c)
  else cols ++ [(k, some v)]

/-- The subject-label re-add loop, broadcast over one row. -/
def labelOverwrite (cols : List (String × Option String))
    (label : List (String × String)) : List (String × Option String) :=
  label.foldl (fun acc kv => setCol acc kv.1 kv.2) cols

/-- eda-process.py lines 85-104: dtype partition, 1-second mean resample,
the misaligned `pd.concat(axis=1)`, then the label broadcast. -/
def resampleConcat (tbl : Table) (label : List (String × String)) :
    List RowOut :=
  let bucketRows : List RowOut := (secondsRange tbl.times).map (fun s =>
    { idx := Sum.inl s
      nums := (numCols tbl).map (fun c => (c.1, bucketMean tbl.times c.2 s))
      objs := (objCols tbl).map (fun c => (c.1, (none : Option String))) })
  let origRows : List RowOut := (List.range tbl.times.length).map (fun i =>
    { idx := Sum.inr i
      nums := (numCols tbl).map (fun c => (c.1, (none : Option ℚ)))
      objs := (objCols tbl).map (fun c => (c.1, some (c.2.getD i ("")))) })
  (bucketRows ++ origRows).map (fun r =>
    { r with objs := labelOverwrite r.objs label })

/-! ### Multi-Modal Fusion Merge (Combined_eapg.py lines 117-161)

`pd.merge_asof(eda_df, ppg_df, on='DateTime', direction='nearest',
tolerance=pd.Timedelta('1s'))`, modelled from the documented semantics of
the call: one output row per (primary) left row; the candidate match is the
nearer of the latest secondary timestamp `≤ t` and the earliest secondary
timestamp `≥ t`, an exact tie preferring the backward (earlier) one; the
match is kept only when its distance is within the tolerance. -/

/-- Largest element of `sec` that is `≤ t` (the backward asof candidate). -/
def maxLeOpt (t : ℚ) : List ℚ → Option ℚ
  | [] => none
  | s :: rest =>
    match maxLeOpt t rest with
    | none => if s ≤ t then some s else none
    | some m => if s ≤ t then some (max s m) else some m

/-- Smallest element of `sec` that is `≥ t` (the forward asof candidate). -/
def minGeOpt (t : ℚ) : List ℚ → Option ℚ
  | [] => none
  | s :: rest =>
    match minGeOpt t rest with
    | none => if t ≤ s then some s else none
    | some m => if t ≤ s then some (min s m) else some m

/-- Semantics of `direction='nearest'`: the nearer of the two asof candidates, ties to
the backward (earlier) one. -/
def asofNearest (sec : List ℚ) (t : ℚ) : Option ℚ :=
  match maxLeOpt t sec, minGeOpt t sec with
  | none, none => none
  | some b, none => some b
  | none, some f => some f
  | some b, some f => if t - b ≤ f - t then some b else some f

/-- The nearest candidate, subject to `tolerance`. -/
def matchWithinTol (sec : List ℚ) (tol t : ℚ) : Option ℚ :=
  match asofNearest sec t with
  | none => none
  | some s => if |t - s| ≤ tol then some s else none

/-- Semantics of `pd.merge_asof(..., direction='nearest', tolerance=tol)` restricted to
the timestamp key: each primary timestamp with its matched secondary
timestamp (`none` = unmatched, all secondary-only columns undefined). -/
def mergeAsofNearestTol (prim sec : List ℚ) (tol : ℚ) :
    List (ℚ × Option ℚ) :=
  prim.map (fun t => (t, matchWithinTol sec tol t))

/-! ### Coalescing of duplicated metadata columns (Combined_eapg.py lines 100-161) -/

/-- Semantics of `combined_df[eda_col].fillna(combined_df[ppg_col])` on one cell:
the primary (EDA) value when defined, else the secondary (PPG) value. -/
def coalesce {α : Type} (p s : Option α) : Option α :=
  match p with
  | some v => some v
  | none => s

/-- The six shared attributes of `duplicate_columns` (lines 101-108). -/
def duplicateAttrs : List String :=
  ["gender", "type", "sleep", "bmi", "bmi_category", "id"]

/-- Column lookup by name. -/
def lookupCol {α : Type} (k : String) : List (String × α) → Option α
  | [] => none
  | c :: rest => if c.1 == k then some c.2 else lookupCol k rest

/-- Semantics of `combined_df.drop(columns=[...])`. -/
def dropCols {α : Type} (ks : List String) (cols : List (String × α)) :
    List (String × α) :=
  cols.filter (fun c => !(ks.any (fun k => k == c.1)))

/-- Lines 152-161 applied to one row: for each shared attribute whose two
suffixed columns are both present, append the unsuffixed coalesced column
and drop the two suffixed ones. -/
def coalesceSharedColumns {α : Type} (cols : List (String × Option α)) :
    List (String × Option α) :=
  duplicateAttrs.foldl (fun acc a =>
    match lookupCol (a ++ "_eda") acc, lookupCol (a ++ "_ppg") acc with
    | some pv, some sv =>
      dropCols [a ++ "_eda", a ++ "_ppg"] acc ++ [(a, coalesce pv sv)]
    | _, _ => acc) cols

/-! ## Helper lemmas -/

theorem diffInt_length : ∀ l : List ℕ, (diffInt l).length = l.length - 1
  | [] => rfl
  | [_] => rfl
  | _ :: b :: rest => by
    have ih := diffInt_length (b :: rest)
    simp only [diffInt, List.length_cons] at ih ⊢
    omega

theorem diffInt_getElem? :
    ∀ (l : List ℕ) (i : ℕ), i + 1 < l.length →
      (diffInt l)[i]? = some ((l.getD (i + 1) 0 : ℤ) - (l.getD i 0 : ℤ))
  | [], i, h => by simp at h
  | [_], i, h => by simp at h
  | _ :: b :: rest, 0, _ => by simp [diffInt, List.getD]
  | a :: b :: rest, i + 1, h => by
    have ih := diffInt_getElem? (b :: rest) i (by
      simp only [List.length_cons] at h ⊢; omega)
    simpa [diffInt, List.getD_cons_succ] using ih

/-! ## Claim C4 — Timestamp Normalizer -/

/-- Claim C4, counterexample.  The claim asserts that every row whose epoch
value is non-numeric is dropped and that the output timestamps are sorted
ascending.  On the input `[5, "x", 3]` the code keeps all three rows (the
non-numeric one with an undefined `DateTime`; only a warning without a count
is printed) and performs no sort, so row 0's timestamp (25205, i.e. 5 s
shifted to UTC+7) exceeds row 2's (25203). -/
theorem C4_counterexample :
    (process_timestamp [RawCell.num 5, RawCell.other ("x"), RawCell.num 3]).length = 3
    ∧ (process_timestamp [RawCell.num 5, RawCell.other ("x"), RawCell.num 3]).map
        Prod.snd = [some 25205, none, some 25203]
    ∧ ¬ ((25205 : ℚ) ≤ 25203) := by
  refine ⟨rfl, ?_, by norm_num⟩
  norm_num [process_timestamp, toDatetimeCoerce, bangkokOffset]

/-- Claim C4, amended.  `process_timestamp` interprets the numeric
epoch-seconds cells as UTC and re-expresses them in the configured
Asia/Bangkok zone (UTC+7); rows with a non-numeric epoch are KEPT with an
undefined timestamp (no rows are dropped and no drop count is produced), and
the row order is exactly the input order (no sorting), so the output
timestamps are sorted only when the input ones are. -/
theorem C4_timestamp_amended (rows : List RawCell) :
    (process_timestamp rows).length = rows.length
    ∧ (process_timestamp rows).map Prod.fst = rows
    ∧ (∀ (i : ℕ) (q : ℚ), rows[i]? = some (RawCell.num q) →
        (process_timestamp rows)[i]? = some (RawCell.num q, some (q + bangkokOffset)))
    ∧ (∀ (i : ℕ) (s : String), rows[i]? = some (RawCell.other s) →
        (process_timestamp rows)[i]? = some (RawCell.other s, (none : Option ℚ))) := by
  refine ⟨List.length_map rows _, ?_, ?_, ?_⟩
  · rw [process_timestamp, List.map_map]
    induction rows with
    | nil => rfl
    | cons a l ih => simp only [List.map_cons, List.map_map] at ih ⊢; simp [ih]
  · intro i q h
    simp [process_timestamp, List.getElem?_map, h, toDatetimeCoerce]
  · intro i s h
    simp [process_timestamp, List.getElem?_map, h, toDatetimeCoerce]

/-- Witness for C4's amended theorem at the counterexample input. -/
theorem C4_timestamp_amended_witness :
    (process_timestamp [RawCell.num 5, RawCell.other ("x"), RawCell.num 3])[1]? =
      some (RawCell.other ("x"), none) :=
  (C4_timestamp_amended [RawCell.num 5, RawCell.other ("x"), RawCell.num 3]).2.2.2
    1 "x" rfl

/-! ## Claim C5 — Beat-Interval Extractor -/

/-- Claim C5.  For every peak mask and positive sampling rate the extractor
collects the true indices in order and emits, for each adjacent pair, the
interval (index distance) / rate; the result has length peak count − 1.  In
particular the mask with peaks at indices 0, 100, 250, 400 at 100 Hz yields
the RR series [1.0, 1.5, 1.5] seconds. -/
theorem C5_rr_intervals (mask : List Bool) (rate : ℚ) (h : 0 < rate) :
    (rr_intervals mask rate).length = (trueIndices mask).length - 1
    ∧ (∀ i, i + 1 < (trueIndices mask).length →
        (rr_intervals mask rate)[i]? =
          some ((((trueIndices mask).getD (i + 1) 0 : ℚ) -
            ((trueIndices mask).getD i 0 : ℚ)) / rate))
    ∧ rr_intervals mask401 100 = [1, 3 / 2, 3 / 2] := by
  refine ⟨?_, ?_, ?_⟩
  · rw [rr_intervals, List.length_map, diffInt_length]
  · intro i hi
    have hd := diffInt_getElem? (trueIndices mask) i hi
    rw [rr_intervals, List.getElem?_map, hd, Option.map_some']
    congr 1
    push_cast
    ring
  · have h1 : trueIndices mask401 = [0, 100, 250, 400] := by decide
    rw [rr_intervals, h1]
    norm_num [diffInt]

/-- Witness for C5 at the concrete mask of the claim. -/
theorem C5_rr_intervals_witness :
    rr_intervals mask401 100 = [1, 3 / 2, 3 / 2] :=
  (C5_rr_intervals mask401 100 (by norm_num)).2.2

/-! ## Claim C1 — rolling-window selection and gating -/

/-- The claim's centered window selection, stated independently of the code:
the RR intervals whose second peak lies within W/2 = 150 s of the sample
time `t` (closed window, per the amendment to claim C1). -/
def centeredSelect (rr : List (ℚ × ℚ)) (t : ℚ) : List ℚ :=
  (rr.filter (fun p => |p.2 - t| ≤ 150)).map Prod.fst

theorem windowSelect_eq_centered (rr : List (ℚ × ℚ)) (t : ℚ) :
    windowSelect rr t 300 = centeredSelect rr t := by
  unfold windowSelect centeredSelect
  congr 1
  apply List.filter_congr
  intro p _
  rw [← Bool.decide_and]
  apply decide_eq_decide.mpr
  rw [abs_sub_le_iff]
  constructor
  · intro hh
    constructor <;> linarith [hh.1, hh.2]
  · intro hh
    constructor <;> linarith [hh.1, hh.2]

/-- Seven RR intervals: six of 1 s with second peaks at 0..50 s, and one of
8 s with its second peak exactly at 150 s, the right edge of the 300 s
window centered at `t = 0`. -/
def rrCex : List (ℚ × ℚ) :=
  [(1, 0), (1, 10), (1, 20), (1, 30), (1, 40), (1, 50), (8, 150)]

/-- Claim C1, counterexample.  At sample time `t = 0` the claim's half-open
window `[t − 150, t + 150)` selects six intervals, all of 1 s — six meets
any reading of the minimum-count threshold 5, and the claim then asserts
mean RR = 1.  The code's mask is inclusive on both ends, so it also selects
the 8 s interval whose second peak sits exactly at `t + 150`, and outputs
mean RR = 2 ≠ 1: the code does not select "exactly" the half-open-window
subset, and its metrics differ from the claimed statistics. -/
theorem C1_counterexample :
    ((rrCex.filter (fun p => (0 : ℚ) - 300 / 2 ≤ p.2 && p.2 < (0 : ℚ) + 300 / 2)).map
        Prod.fst) = [1, 1, 1, 1, 1, 1]
    ∧ mean [1, 1, 1, 1, 1, 1] = 1
    ∧ (rollingAt rrCex 0).1 = some 2
    ∧ some (2 : ℚ) ≠ some (1 : ℚ) := by
  refine ⟨?_, ?_, ?_, by norm_num⟩
  · norm_num [rrCex, List.filter_cons]
  · norm_num [mean, List.sum_cons, List.sum_nil]
  · have hw : windowSelect rrCex 0 300 = [1, 1, 1, 1, 1, 1, 8] := by
      norm_num [windowSelect, rrCex, List.filter_cons]
    rw [rollingAt]
    simp only [hw]
    norm_num [mean, List.sum_cons, List.sum_nil]

/-- Claim C1, amended.  For every evaluated sample time `t`, the rolling
aggregator selects exactly the RR intervals whose second peak falls in the
CLOSED centered window `[t − W/2, t + W/2]` (W = 300 s) and is gated by the
strict count condition `count > 5`: when more than 5 intervals are selected,
the three metrics equal the statistics of that subset (mean RR; RMSSD and
SDNN via their squares, the identical square root being applied by the code
afterwards); with 5 or fewer selected intervals all three are left
undefined. -/
theorem C1_rolling_amended (rr : List (ℚ × ℚ)) (t : ℚ) :
    (5 < (centeredSelect rr t).length →
      rollingAt rr t = (some (mean (centeredSelect rr t)),
        some (rmssdSq (centeredSelect rr t)),
        some (varianceP (centeredSelect rr t))))
    ∧ ((centeredSelect rr t).length ≤ 5 → rollingAt rr t = (none, none, none)) := by
  have hw := windowSelect_eq_centered rr t
  constructor
  · intro h5
    rw [rollingAt]
    simp only [hw]
    rw [if_pos h5, if_pos (by omega)]
  · intro h5
    rw [rollingAt]
    simp only [hw]
    rw [if_neg (by omega)]

/-- Witness for C1's amended theorem: six 1 s intervals within the window
centered at 0 pass the `count > 5` gate and the metrics are the subset's
statistics. -/
theorem C1_rolling_amended_witness :
    rollingAt [((1 : ℚ), (0 : ℚ)), (1, 10), (1, 20), (1, 30), (1, 40), (1, 50)] 0 =
      (some (mean (centeredSelect [((1 : ℚ), (0 : ℚ)), (1, 10), (1, 20), (1, 30),
          (1, 40), (1, 50)] 0)),
       some (rmssdSq (centeredSelect [((1 : ℚ), (0 : ℚ)), (1, 10), (1, 20), (1, 30),
          (1, 40), (1, 50)] 0)),
       some (varianceP (centeredSelect [((1 : ℚ), (0 : ℚ)), (1, 10), (1, 20), (1, 30),
          (1, 40), (1, 50)] 0))) :=
  (C1_rolling_amended _ 0).1 (by norm_num [centeredSelect, List.filter_cons, abs_le])

/-! ## Claim C2 — interpolation of undefined rolling samples -/

theorem lastDefinedBefore_eq (l : List (Option ℚ)) (j : ℕ) (vj : ℚ) :
    ∀ i, j < i → l.getD j none = some vj →
      (∀ m, j < m → m < i → l.getD m none = none) →
      lastDefinedBefore l i = some (j, vj) := by
  intro i
  induction i with
  | zero => omega
  | succ i ih =>
    intro hji hj hgap
    simp only [lastDefinedBefore]
    by_cases hcase : j = i
    · subst hcase
      rw [hj]
    · have hnone : l.getD i none = none := hgap i (by omega) (by omega)
      rw [hnone]
      exact ih (by omega) hj (fun m h1 h2 => hgap m h1 (by omega))

theorem lastDefinedBefore_none (l : List (Option ℚ)) :
    ∀ i, (∀ m, m < i → l.getD m none = none) → lastDefinedBefore l i = none := by
  intro i
  induction i with
  | zero => intro _; rfl
  | succ i ih =>
    intro hall
    simp only [lastDefinedBefore]
    rw [hall i (by omega)]
    exact ih (fun m hm => hall m (by omega))

theorem firstDefinedIdx_eq :
    ∀ (L : List (Option ℚ)) (d : ℕ) (v : ℚ), L.getD d none = some v →
      (∀ m, m < d → L.getD m none = none) → firstDefinedIdx L = some (d, v)
  | [], d, v, hv, _ => by simp [List.getD] at hv
  | x :: rest, 0, v, hv, _ => by
    rw [List.getD_cons_zero] at hv
    subst hv
    rfl
  | x :: rest, d + 1, v, hv, hgap => by
    have hx : x = none := by
      have := hgap 0 (by omega)
      rwa [List.getD_cons_zero] at this
    subst hx
    rw [List.getD_cons_succ] at hv
    have ih := firstDefinedIdx_eq rest d v hv (fun m hm => by
      have := hgap (m + 1) (by omega)
      rwa [List.getD_cons_succ] at this)
    simp only [firstDefinedIdx, ih]

theorem firstDefinedIdx_none :
    ∀ L : List (Option ℚ), (∀ m, m < L.length → L.getD m none = none) →
      firstDefinedIdx L = none
  | [], _ => rfl
  | x :: rest, hall => by
    have hx : x = none := by
      have := hall 0 (by simp)
      rwa [List.getD_cons_zero] at this
    subst hx
    have ih := firstDefinedIdx_none rest (fun m hm => by
      have := hall (m + 1) (by simp only [List.length_cons]; omega)
      rwa [List.getD_cons_succ] at this)
    simp only [firstDefinedIdx, ih]

theorem getD_drop_none (l : List (Option ℚ)) (n m : ℕ) :
    (l.drop n).getD m none = l.getD (n + m) none := by
  rw [List.getD_eq_getElem?_getD, List.getD_eq_getElem?_getD, List.getElem?_drop]

theorem findDefinedFrom_eq (l : List (Option ℚ)) (i k : ℕ) (vk : ℚ)
    (hik : i ≤ k) (hv : l.getD k none = some vk)
    (hgap : ∀ m, i ≤ m → m < k → l.getD m none = none) :
    findDefinedFrom l i = some (k, vk) := by
  rw [findDefinedFrom]
  have h1 : (l.drop i).getD (k - i) none = some vk := by
    rw [getD_drop_none, Nat.add_sub_cancel' hik]
    exact hv
  have h2 : ∀ m, m < k - i → (l.drop i).getD m none = none := fun m hm => by
    rw [getD_drop_none]
    exact hgap (i + m) (by omega) (by omega)
  rw [firstDefinedIdx_eq (l.drop i) (k - i) vk h1 h2]
  simp only [Option.some.injEq, Prod.mk.injEq]
  exact ⟨by omega, trivial⟩

theorem findDefinedFrom_none (l : List (Option ℚ)) (i : ℕ)
    (hall : ∀ m, i ≤ m → m < l.length → l.getD m none = none) :
    findDefinedFrom l i = none := by
  rw [findDefinedFrom, firstDefinedIdx_none]
  intro m hm
  rw [getD_drop_none]
  rw [List.length_drop] at hm
  exact hall (i + m) (by omega) (by omega)

/-- Claim C2, counterexample.  The claim asserts that samples after the last
defined value remain undefined.  With RMSSD defined at samples 0 and 1
(0.05 and 0.07) and undefined at sample 2, the pandas call the code makes
fills sample 2 with 0.07 (the last defined value) instead of leaving it
undefined. -/
theorem C2_counterexample :
    interpolateLinear [some ((1 : ℚ)/20), some (7/100), none] =
      [some (1/20), some (7/100), some (7/100)]
    ∧ (interpolateLinear [some ((1 : ℚ)/20), some (7/100), none]).getD 2 none ≠ none := by
  constructor
  · rfl
  · rw [show interpolateLinear [some ((1 : ℚ)/20), some (7/100), none] =
      [some (1/20), some (7/100), some (7/100)] from rfl]
    simp [List.getD]

/-- Claim C2, amended.  After rolling-mode evaluation the undefined samples
are filled by linear interpolation across the sample axis: defined samples
are kept; an undefined sample strictly between two defined ones is filled
linearly; samples before the first defined value remain undefined; but
samples after the last defined value do NOT remain undefined — they are
filled with the last defined value (the forward fill of the pandas default).
With RMSSD 0.05 at sample 0 and 0.07 at sample 10 and undefined at samples
1–9, sample 5 is filled with 0.06 as the claim states. -/
theorem C2_interpolation_amended (l : List (Option ℚ)) :
    (interpolateLinear l).length = l.length
    ∧ (∀ (i : ℕ) (v : ℚ), l.getD i none = some v → i < l.length →
        (interpolateLinear l)[i]? = some (some v))
    ∧ (∀ i : ℕ, i < l.length → (∀ j, j ≤ i → l.getD j none = none) →
        (interpolateLinear l)[i]? = some none)
    ∧ (∀ (i j k : ℕ) (vj vk : ℚ), j < i → i < k → k < l.length →
        l.getD j none = some vj → l.getD k none = some vk →
        (∀ m, j < m → m < k → l.getD m none = none) →
        (interpolateLinear l)[i]? =
          some (some (vj + (vk - vj) * ((i : ℚ) - (j : ℚ)) / ((k : ℚ) - (j : ℚ)))))
    ∧ (∀ (i j : ℕ) (vj : ℚ), j < i → i < l.length →
        l.getD j none = some vj →
        (∀ m, j < m → m < l.length → l.getD m none = none) →
        (interpolateLinear l)[i]? = some (some vj))
    ∧ (interpolateLinear ([some ((1 : ℚ)/20)] ++ List.replicate 9 none ++
        [some (7/100)]))[5]? = some (some (3/50)) := by
  refine ⟨?_, ?_, ?_, ?_, ?_, ?_⟩
  · rw [interpolateLinear, List.length_map, List.length_range]
  · intro i v hv hi
    rw [interpolateLinear, List.getElem?_map, List.getElem?_range hi]
    simp only [Option.map_some']
    rw [hv]
  · intro i hi hall
    rw [interpolateLinear, List.getElem?_map, List.getElem?_range hi]
    simp only [Option.map_some']
    rw [hall i (by omega), lastDefinedBefore_none l i (fun m hm => hall m (by omega))]
  · intro i j k vj vk hji hik hk hj hkv hgap
    have hi : i < l.length := by omega
    have hinone : l.getD i none = none := hgap i (by omega) (by omega)
    have hlast : lastDefinedBefore l i = some (j, vj) :=
      lastDefinedBefore_eq l j vj i hji hj (fun m h1 h2 => hgap m h1 (by omega))
    have hfind : findDefinedFrom l (i + 1) = some (k, vk) :=
      findDefinedFrom_eq l (i + 1) k vk (by omega) hkv
        (fun m h1 h2 => hgap m (by omega) h2)
    rw [interpolateLinear, List.getElem?_map, List.getElem?_range hi]
    simp only [Option.map_some']
    rw [hinone, hlast, hfind]
  · intro i j vj hji hi hj hgap
    have hinone : l.getD i none = none := hgap i (by omega) hi
    have hlast : lastDefinedBefore l i = some (j, vj) :=
      lastDefinedBefore_eq l j vj i hji hj (fun m h1 h2 => hgap m h1 (by omega))
    have hfind : findDefinedFrom l (i + 1) = none :=
      findDefinedFrom_none l (i + 1) (fun m h1 h2 => hgap m (by omega) h2)
    rw [interpolateLinear, List.getElem?_map, List.getElem?_range hi]
    simp only [Option.map_some']
    rw [hinone, hlast, hfind]
  · have h5 : ([some ((1 : ℚ)/20)] ++ List.replicate 9 none ++
        [some (7/100)]).getD 5 none = none := rfl
    have hlast : lastDefinedBefore ([some ((1 : ℚ)/20)] ++ List.replicate 9 none ++
        [some (7/100)]) 5 = some (0, 1/20) := rfl
    have hfind : findDefinedFrom ([some ((1 : ℚ)/20)] ++ List.replicate 9 none ++
        [some (7/100)]) 6 = some (10, 7/100) := rfl
    rw [interpolateLinear, List.getElem?_map,
      List.getElem?_range (by norm_num)]
    simp only [Option.map_some']
    rw [h5, hlast, hfind]
    norm_num

/-- Witness for C2's amended theorem: in `[some 1, none, some 3, none]` the
interior undefined sample 1 is filled with the linear interpolant of its
neighbours. -/
theorem C2_interpolation_amended_witness :
    (interpolateLinear [some (1 : ℚ), none, some 3, none])[1]? =
      some (some (1 + (3 - 1) * (((1 : ℕ) : ℚ) - ((0 : ℕ) : ℚ)) /
        (((2 : ℕ) : ℚ) - ((0 : ℕ) : ℚ)))) :=
  (C2_interpolation_amended [some (1 : ℚ), none, some 3, none]).2.2.2.1 1 0 2 1 3
    (by decide) (by decide) (by decide) rfl rfl
    (fun m h1 h2 => by
      have hm : m = 1 := by omega
      subst hm
      rfl)

/-! ## Claims C3 and C10 — gating of insufficient data -/

theorem interpolateLinear_length (l : List (Option ℚ)) :
    (interpolateLinear l).length = l.length := by
  rw [interpolateLinear, List.length_map, List.length_range]

theorem rollingPass_length (rr : List (ℚ × ℚ)) (times : List ℚ) :
    (rollingPass rr times).length = times.length := by
  rw [rollingPass, List.length_map, List.length_range]

theorem map_fst_pair {α β : Type} (f : α → Option β) (l : List α) :
    (l.map (fun m => (m, f m))).map Prod.fst = l := by
  induction l with
  | nil => rfl
  | cons a as ih => simp [ih]

/-- Claim C3.  Insufficient RR data never raises: when the detected peak
count is below 10 the global gate takes its else branch and the full
13-metric feature vector is emitted with every metric undefined and the key
set complete; a window (or recording) with zero selected RR intervals makes
the rolling evaluation return all-undefined metrics instead of failing; and
the three rolling columns are always full-length (one entry per sample)
whatever the input, so processing continues with a complete vector.  (All
model functions are total, mirroring that the source raises no exception on
these paths.) -/
theorem C3_insufficient_data (peakCount : ℕ) (computed : String → Option ℚ)
    (h : peakCount < 10) (rr : List (ℚ × ℚ)) (t : ℚ)
    (hw : windowSelect rr t 300 = []) (peakIdx : List ℕ) (times : List ℚ) :
    ((globalGateColumns peakCount computed).map Prod.fst = hrvMetricNames13
      ∧ ∀ p ∈ globalGateColumns peakCount computed, p.2 = none)
    ∧ rollingAt rr t = (none, none, none)
    ∧ ((rollingMetrics peakIdx times).1.length = times.length
      ∧ (rollingMetrics peakIdx times).2.1.length = times.length
      ∧ (rollingMetrics peakIdx times).2.2.length = times.length) := by
  refine ⟨⟨?_, ?_⟩, ?_, ?_⟩
  · rw [globalGateColumns, if_neg (by omega)]
    exact map_fst_pair _ _
  · intro p hp
    rw [globalGateColumns, if_neg (by omega)] at hp
    obtain ⟨m, _, rfl⟩ := List.mem_map.mp hp
    rfl
  · rw [rollingAt]
    simp only [hw]
    rfl
  · simp only [rollingMetrics]
    split_ifs with h10 h2
    · refine ⟨?_, ?_, ?_⟩ <;>
        simp [interpolateLinear_length, rollingPass_length]
    · simp
    · simp

/-- Witness for C3 at two detected peaks and an empty RR window. -/
theorem C3_insufficient_data_witness :
    rollingAt ([] : List (ℚ × ℚ)) 0 = (none, none, none)
    ∧ (globalGateColumns 2 (fun _ => none)).map Prod.fst = hrvMetricNames13 := by
  have hc := C3_insufficient_data 2 (fun _ => none) (by decide) [] 0 rfl [] []
  exact ⟨hc.2.1, hc.1.1⟩

/-- Claim C10.  Rolling evaluation is nested inside the global peak-count
gate: for every recording whose detected peak count does not exceed 10, the
three rolling columns (RR_Mean, RMSSD, SDNN) are undefined at every output
sample regardless of what any individual 300 s window would contain — the
rolling statistics are computed only after the `len(peak_indices) > 10`
branch is taken. -/
theorem C10_rolling_under_gate (peakIdx : List ℕ) (times : List ℚ)
    (h : peakIdx.length ≤ 10) :
    rollingMetrics peakIdx times =
      (List.replicate times.length none, List.replicate times.length none,
        List.replicate times.length none) := by
  simp only [rollingMetrics]
  rw [if_neg (by omega)]

/-- Witness for C10: three peaks, two samples, all rolling entries
undefined. -/
theorem C10_rolling_under_gate_witness :
    rollingMetrics [0, 5, 9] [0, 1] =
      (List.replicate 2 none, List.replicate 2 none, List.replicate 2 none) :=
  C10_rolling_under_gate [0, 5, 9] [0, 1] (by decide)

/-! ## Claims C6 and C7 — Cadence Resampler -/

/-- A 3-sample stream at 10.2 s, 10.5 s, 10.7 s: one numeric column with
values 2, 4, 6 (all inside the single whole-second bucket 10) and one
object column with the subject id. -/
def t6 : Table :=
  ⟨[(51:ℚ)/5, 21/2, 107/10],
   [("EDA_Clean", ColVals.num [some 2, some 4, some 6]),
    ("id", ColVals.obj ["S01", "S01", "S01"])]⟩

/-- Claim C6, evaluation at the failing input.  The bucket mean is 4 as the
claim states, and the label is broadcast to every row — but the output has
FOUR rows, not the claimed exactly-one-row-per-bucket (one bucket here):
the one bucket row plus one spurious row per input sample, produced because
`pd.concat(axis=1)` aligns the object columns by their original integer
index against the resampled time index. -/
theorem C6_resample_eval :
    resampleConcat t6 [("id", "S01")] =
      [⟨Sum.inl 10, [("EDA_Clean", some 4)], [("id", some "S01")]⟩,
       ⟨Sum.inr 0, [("EDA_Clean", none)], [("id", some "S01")]⟩,
       ⟨Sum.inr 1, [("EDA_Clean", none)], [("id", some "S01")]⟩,
       ⟨Sum.inr 2, [("EDA_Clean", none)], [("id", some "S01")]⟩]
    ∧ (resampleConcat t6 [("id", "S01")]).length = 4
    ∧ (secondsRange t6.times).length = 1
    ∧ bucketMean [(51:ℚ)/5, 21/2, 107/10] [some (2:ℚ), some 4, some 6] 10 = some 4
    ∧ ¬ ((4 : ℕ) = 1) := by
  have h1 : secondsRange t6.times = [10] := by
    have hmin : listMinD [(51:ℚ)/5, 21/2, 107/10] 0 = 51/5 := by
      norm_num [listMinD, List.foldl, min_def]
    have hmax : listMaxD [(51:ℚ)/5, 21/2, 107/10] 0 = 107/10 := by
      norm_num [listMaxD, List.foldl, max_def]
    show secondsRange [(51:ℚ)/5, 21/2, 107/10] = [10]
    simp only [secondsRange, hmin, hmax]
    norm_num
    decide
  have h4 : bucketMean [(51:ℚ)/5, 21/2, 107/10] [some (2:ℚ), some 4, some 6] 10 =
      some 4 := by
    have hf1 : (⌊(51/5 : ℚ)⌋ : ℤ) = 10 := by norm_num
    have hf2 : (⌊(21/2 : ℚ)⌋ : ℤ) = 10 := by norm_num
    have hf3 : (⌊(107/10 : ℚ)⌋ : ℤ) = 10 := by norm_num
    have hxs : ((([(51:ℚ)/5, 21/2, 107/10].zip
        [some (2:ℚ), some 4, some 6]).filter
          (fun p => ⌊p.1⌋ == (10:ℤ))).filterMap Prod.snd) = [2, 4, 6] := by
      simp [List.zip, List.zipWith, List.filter, hf1, hf2, hf3, List.filterMap]
    simp only [bucketMean, hxs]
    norm_num [mean, List.sum_cons, List.sum_nil]
  have hmain : resampleConcat t6 [("id", "S01")] =
      [⟨Sum.inl 10, [("EDA_Clean", some 4)], [("id", some "S01")]⟩,
       ⟨Sum.inr 0, [("EDA_Clean", none)], [("id", some "S01")]⟩,
       ⟨Sum.inr 1, [("EDA_Clean", none)], [("id", some "S01")]⟩,
       ⟨Sum.inr 2, [("EDA_Clean", none)], [("id", some "S01")]⟩] := by
    simp only [resampleConcat, h1]
    simp only [t6, numCols, objCols, List.filterMap_cons, List.filterMap_nil]
    simp only [List.map_cons, List.map_nil, h4]
    have hr : List.range 3 = [0, 1, 2] := rfl
    simp only [List.length_cons, List.length_nil, hr]
    simp only [List.map_cons, List.map_nil, List.append_nil, List.cons_append,
      List.nil_append]
    simp [labelOverwrite, setCol, List.getD]
  refine ⟨hmain, ?_, ?_, h4, by omega⟩
  · rw [hmain]
    rfl
  · rw [h1]
    rfl

/-- A stream that already has exactly one-second cadence: one row per whole
second (10 s and 11 s), numeric values 2 and 3, and an object id column. -/
def t7 : Table :=
  ⟨[(10:ℚ), 11],
   [("EDA_Clean", ColVals.num [some 2, some 3]),
    ("id", ColVals.obj ["S01", "S01"])]⟩

/-- Claim C7, evaluation at the failing input.  Each bucket has exactly one
contributing row and its mean is that row's value (2 and 3), as the claim
reasons — but the resampler does not reproduce the 2-row stream: it outputs
FOUR rows (the two bucket rows plus one spurious misaligned row per input
sample), so resampling an already 1-second-cadence stream is not the
identity. -/
theorem C7_idempotence_eval :
    resampleConcat t7 [("id", "S01")] =
      [⟨Sum.inl 10, [("EDA_Clean", some 2)], [("id", some "S01")]⟩,
       ⟨Sum.inl 11, [("EDA_Clean", some 3)], [("id", some "S01")]⟩,
       ⟨Sum.inr 0, [("EDA_Clean", none)], [("id", some "S01")]⟩,
       ⟨Sum.inr 1, [("EDA_Clean", none)], [("id", some "S01")]⟩]
    ∧ t7.times.length = 2
    ∧ (resampleConcat t7 [("id", "S01")]).length = 4
    ∧ bucketMean [(10:ℚ), 11] [some (2:ℚ), some 3] 10 = some 2
    ∧ bucketMean [(10:ℚ), 11] [some (2:ℚ), some 3] 11 = some 3
    ∧ ¬ ((4 : ℕ) = 2) := by
  have hf10 : (⌊(10 : ℚ)⌋ : ℤ) = 10 := by norm_num
  have hf11 : (⌊(11 : ℚ)⌋ : ℤ) = 11 := by norm_num
  have h1 : secondsRange t7.times = [10, 11] := by
    have hmin : listMinD [(10:ℚ), 11] 0 = 10 := by
      norm_num [listMinD, List.foldl, min_def]
    have hmax : listMaxD [(10:ℚ), 11] 0 = 11 := by
      norm_num [listMaxD, List.foldl, max_def]
    show secondsRange [(10:ℚ), 11] = [10, 11]
    simp only [secondsRange, hmin, hmax, hf10, hf11]
    decide
  have hb10 : bucketMean [(10:ℚ), 11] [some (2:ℚ), some 3] 10 = some 2 := by
    have hxs : ((([(10:ℚ), 11].zip [some (2:ℚ), some 3]).filter
        (fun p => ⌊p.1⌋ == (10:ℤ))).filterMap Prod.snd) = [2] := by
      simp [List.zip, List.zipWith, List.filter, hf10, hf11, List.filterMap]
    simp only [bucketMean, hxs]
    norm_num [mean, List.sum_cons, List.sum_nil]
  have hb11 : bucketMean [(10:ℚ), 11] [some (2:ℚ), some 3] 11 = some 3 := by
    have hxs : ((([(10:ℚ), 11].zip [some (2:ℚ), some 3]).filter
        (fun p => ⌊p.1⌋ == (11:ℤ))).filterMap Prod.snd) = [3] := by
      simp [List.zip, List.zipWith, List.filter, hf10, hf11, List.filterMap]
    simp only [bucketMean, hxs]
    norm_num [mean, List.sum_cons, List.sum_nil]
  have hmain : resampleConcat t7 [("id", "S01")] =
      [⟨Sum.inl 10, [("EDA_Clean", some 2)], [("id", some "S01")]⟩,
       ⟨Sum.inl 11, [("EDA_Clean", some 3)], [("id", some "S01")]⟩,
       ⟨Sum.inr 0, [("EDA_Clean", none)], [("id", some "S01")]⟩,
       ⟨Sum.inr 1, [("EDA_Clean", none)], [("id", some "S01")]⟩] := by
    simp only [resampleConcat, h1]
    simp only [t7, numCols, objCols, List.filterMap_cons, List.filterMap_nil]
    simp only [List.map_cons, List.map_nil, hb10, hb11]
    have hr : List.range 2 = [0, 1] := rfl
    simp only [List.length_cons, List.length_nil, hr]
    simp only [List.map_cons, List.map_nil, List.append_nil, List.cons_append,
      List.nil_append]
    simp [labelOverwrite, setCol, List.getD]
  refine ⟨hmain, rfl, ?_, hb10, hb11, by omega⟩
  rw [hmain]
  rfl

/-! ## Claim C8 — Multi-Modal Fusion Merge -/

theorem maxLeOpt_mem :
    ∀ (sec : List ℚ) (t m : ℚ), maxLeOpt t sec = some m → m ∈ sec ∧ m ≤ t := by
  intro sec
  induction sec with
  | nil => intro t m h; simp [maxLeOpt] at h
  | cons s rest ih =>
    intro t m h
    simp only [maxLeOpt] at h
    rcases hr : maxLeOpt t rest with _ | m'
    · rw [hr] at h
      split_ifs at h with hst
      · cases h
        exact ⟨List.mem_cons_self s rest, hst⟩
    · rw [hr] at h
      obtain ⟨hmem, hle⟩ := ih t m' hr
      split_ifs at h with hst
      · cases h
        rcases max_choice s m' with hmax | hmax <;> rw [hmax]
        · exact ⟨List.mem_cons_self s rest, hst⟩
        · exact ⟨List.mem_cons_of_mem s hmem, hle⟩
      · cases h
        exact ⟨List.mem_cons_of_mem s hmem, hle⟩

theorem maxLeOpt_none :
    ∀ (sec : List ℚ) (t : ℚ), maxLeOpt t sec = none → ∀ x ∈ sec, ¬ (x ≤ t) := by
  intro sec
  induction sec with
  | nil => intro t _ x hx; simp at hx
  | cons s rest ih =>
    intro t h x hx
    simp only [maxLeOpt] at h
    rcases hr : maxLeOpt t rest with _ | m'
    · rw [hr] at h
      split_ifs at h with hst
      rcases List.mem_cons.mp hx with hxs | hxr
      · subst hxs; exact hst
      · exact ih t hr x hxr
    · rw [hr] at h
      split_ifs at h

theorem maxLeOpt_is_max :
    ∀ (sec : List ℚ) (t x m : ℚ), maxLeOpt t sec = some m → x ∈ sec → x ≤ t →
      x ≤ m := by
  intro sec
  induction sec with
  | nil => intro t x m h; simp [maxLeOpt] at h
  | cons s rest ih =>
    intro t x m h hx hxt
    simp only [maxLeOpt] at h
    rcases hr : maxLeOpt t rest with _ | m'
    · rw [hr] at h
      split_ifs at h with hst
      cases h
      rcases List.mem_cons.mp hx with hxs | hxr
      · subst hxs; exact le_refl x
      · exact absurd hxt (maxLeOpt_none rest t hr x hxr)
    · rw [hr] at h
      split_ifs at h with hst
      · cases h
        rcases List.mem_cons.mp hx with hxs | hxr
        · subst hxs; exact le_max_left x m'
        · exact le_trans (ih t x m' hr hxr hxt) (le_max_right s m')
      · cases h
        rcases List.mem_cons.mp hx with hxs | hxr
        · subst hxs; exact absurd hxt hst
        · exact ih t x _ hr hxr hxt

theorem minGeOpt_mem :
    ∀ (sec : List ℚ) (t m : ℚ), minGeOpt t sec = some m → m ∈ sec ∧ t ≤ m := by
  intro sec
  induction sec with
  | nil => intro t m h; simp [minGeOpt] at h
  | cons s rest ih =>
    intro t m h
    simp only [minGeOpt] at h
    rcases hr : minGeOpt t rest with _ | m'
    · rw [hr] at h
      split_ifs at h with hst
      · cases h
        exact ⟨List.mem_cons_self s rest, hst⟩
    · rw [hr] at h
      obtain ⟨hmem, hle⟩ := ih t m' hr
      split_ifs at h with hst
      · cases h
        rcases min_choice s m' with hmin | hmin <;> rw [hmin]
        · exact ⟨List.mem_cons_self s rest, hst⟩
        · exact ⟨List.mem_cons_of_mem s hmem, hle⟩
      · cases h
        exact ⟨List.mem_cons_of_mem s hmem, hle⟩

theorem minGeOpt_none :
    ∀ (sec : List ℚ) (t : ℚ), minGeOpt t sec = none → ∀ x ∈ sec, ¬ (t ≤ x) := by
  intro sec
  induction sec with
  | nil => intro t _ x hx; simp at hx
  | cons s rest ih =>
    intro t h x hx
    simp only [minGeOpt] at h
    rcases hr : minGeOpt t rest with _ | m'
    · rw [hr] at h
      split_ifs at h with hst
      rcases List.mem_cons.mp hx with hxs | hxr
      · subst hxs; exact hst
      · exact ih t hr x hxr
    · rw [hr] at h
      split_ifs at h

theorem minGeOpt_is_min :
    ∀ (sec : List ℚ) (t x m : ℚ), minGeOpt t sec = some m → x ∈ sec → t ≤ x →
      m ≤ x := by
  intro sec
  induction sec with
  | nil => intro t x m h; simp [minGeOpt] at h
  | cons s rest ih =>
    intro t x m h hx hxt
    simp only [minGeOpt] at h
    rcases hr : minGeOpt t rest with _ | m'
    · rw [hr] at h
      split_ifs at h with hst
      cases h
      rcases List.mem_cons.mp hx with hxs | hxr
      · subst hxs; exact le_refl x
      · exact absurd hxt (minGeOpt_none rest t hr x hxr)
    · rw [hr] at h
      split_ifs at h with hst
      · cases h
        rcases List.mem_cons.mp hx with hxs | hxr
        · subst hxs; exact min_le_left x m'
        · exact le_trans (min_le_right s m') (ih t x m' hr hxr hxt)
      · cases h
        rcases List.mem_cons.mp hx with hxs | hxr
        · subst hxs; exact absurd hxt hst
        · exact ih t x _ hr hxr hxt

theorem asofNearest_spec (sec : List ℚ) (t s : ℚ) (h : asofNearest sec t = some s) :
    s ∈ sec ∧ (∀ x ∈ sec, |t - s| ≤ |t - x|) ∧
      (∀ x ∈ sec, |t - x| = |t - s| → s ≤ x) := by
  rw [asofNearest] at h
  rcases hb : maxLeOpt t sec with _ | b <;> rcases hf : minGeOpt t sec with _ | f <;>
    rw [hb, hf] at h
  · exact absurd h (by simp)
  · -- only a forward candidate: everything in sec is > t
    change some f = some s at h
    cases h
    obtain ⟨hfm, hft⟩ := minGeOpt_mem sec t s hf
    have habs : |t - s| = s - t := by rw [abs_sub_comm]; exact abs_of_nonneg (by linarith)
    refine ⟨hfm, ?_, ?_⟩
    · intro x hx
      have hxt : t ≤ x := le_of_not_le (maxLeOpt_none sec t hb x hx)
      have : s ≤ x := minGeOpt_is_min sec t x s hf hx hxt
      have habsx : |t - x| = x - t := by rw [abs_sub_comm]; exact abs_of_nonneg (by linarith)
      rw [habs, habsx]
      linarith
    · intro x hx hxe
      have hxt : t ≤ x := le_of_not_le (maxLeOpt_none sec t hb x hx)
      have habsx : |t - x| = x - t := by rw [abs_sub_comm]; exact abs_of_nonneg (by linarith)
      rw [habs, habsx] at hxe
      linarith
  · -- only a backward candidate: everything in sec is < t
    change some b = some s at h
    cases h
    obtain ⟨hbm, hbt⟩ := maxLeOpt_mem sec t s hb
    have habs : |t - s| = t - s := abs_of_nonneg (by linarith)
    refine ⟨hbm, ?_, ?_⟩
    · intro x hx
      have hxt : x ≤ t := le_of_not_le (minGeOpt_none sec t hf x hx)
      have : x ≤ s := maxLeOpt_is_max sec t x s hb hx hxt
      have habsx : |t - x| = t - x := abs_of_nonneg (by linarith)
      rw [habs, habsx]
      linarith
    · intro x hx hxe
      have hxt : x ≤ t := le_of_not_le (minGeOpt_none sec t hf x hx)
      have habsx : |t - x| = t - x := abs_of_nonneg (by linarith)
      rw [habs, habsx] at hxe
      linarith
  · -- both candidates
    obtain ⟨hbm, hbt⟩ := maxLeOpt_mem sec t b hb
    obtain ⟨hfm, hft⟩ := minGeOpt_mem sec t f hf
    change (if t - b ≤ f - t then some b else some f) = some s at h
    split_ifs at h with hcmp
    · cases h
      have habs : |t - s| = t - s := abs_of_nonneg (by linarith)
      refine ⟨hbm, ?_, ?_⟩
      · intro x hx
        rcases le_total x t with hxt | hxt
        · have : x ≤ s := maxLeOpt_is_max sec t x s hb hx hxt
          have habsx : |t - x| = t - x := abs_of_nonneg (by linarith)
          rw [habs, habsx]
          linarith
        · have : f ≤ x := minGeOpt_is_min sec t x f hf hx hxt
          have habsx : |t - x| = x - t := by
            rw [abs_sub_comm]; exact abs_of_nonneg (by linarith)
          rw [habs, habsx]
          linarith
      · intro x hx hxe
        rcases le_total x t with hxt | hxt
        · have : x ≤ s := maxLeOpt_is_max sec t x s hb hx hxt
          have habsx : |t - x| = t - x := abs_of_nonneg (by linarith)
          rw [habs, habsx] at hxe
          linarith
        · linarith
    · cases h
      have habs : |t - s| = s - t := by
        rw [abs_sub_comm]; exact abs_of_nonneg (by linarith)
      refine ⟨hfm, ?_, ?_⟩
      · intro x hx
        rcases le_total x t with hxt | hxt
        · have : x ≤ b := maxLeOpt_is_max sec t x b hb hx hxt
          have habsx : |t - x| = t - x := abs_of_nonneg (by linarith)
          rw [habs, habsx]
          linarith
        · have : s ≤ x := minGeOpt_is_min sec t x s hf hx hxt
          have habsx : |t - x| = x - t := by
            rw [abs_sub_comm]; exact abs_of_nonneg (by linarith)
          rw [habs, habsx]
          linarith
      · intro x hx hxe
        rcases le_total x t with hxt | hxt
        · have : x ≤ b := maxLeOpt_is_max sec t x b hb hx hxt
          have habsx : |t - x| = t - x := abs_of_nonneg (by linarith)
          rw [habs, habsx] at hxe
          linarith
        · exact minGeOpt_is_min sec t x s hf hx hxt


theorem matchWithinTol_some_spec (sec : List ℚ) (tol t s : ℚ)
    (h : matchWithinTol sec tol t = some s) :
    s ∈ sec ∧ |t - s| ≤ tol ∧ (∀ x ∈ sec, |t - s| ≤ |t - x|) ∧
      (∀ x ∈ sec, |t - x| = |t - s| → s ≤ x) := by
  rw [matchWithinTol] at h
  rcases hn : asofNearest sec t with _ | c <;> rw [hn] at h
  · exact absurd h (by simp)
  · change (if |t - c| ≤ tol then some c else none) = some s at h
    split_ifs at h with htol
    · cases h
      obtain ⟨h1, h2, h3⟩ := asofNearest_spec sec t s hn
      exact ⟨h1, htol, h2, h3⟩

theorem matchWithinTol_none_spec (sec : List ℚ) (tol t : ℚ)
    (h : matchWithinTol sec tol t = none) :
    ∀ x ∈ sec, tol < |t - x| := by
  rw [matchWithinTol] at h
  rcases hn : asofNearest sec t with _ | c <;> rw [hn] at h
  · -- no asof candidate at all: sec must be empty
    intro x hx
    rw [asofNearest] at hn
    rcases hb : maxLeOpt t sec with _ | b <;> rcases hf : minGeOpt t sec with _ | f <;>
      rw [hb, hf] at hn
    · rcases le_total x t with hxt | hxt
      · exact absurd hxt (maxLeOpt_none sec t hb x hx)
      · exact absurd hxt (minGeOpt_none sec t hf x hx)
    · exact absurd hn (by simp)
    · exact absurd hn (by simp)
    · change (if t - b ≤ f - t then some b else some f) = none at hn
      split_ifs at hn
  · change (if |t - c| ≤ tol then some c else none) = none at h
    split_ifs at h with htol
    intro x hx
    have hle := (asofNearest_spec sec t c hn).2.1 x hx
    push_neg at htol
    linarith

/-- Claim C8.  For every pair of non-empty resampled streams the fusion
merge emits exactly one output row per primary row (in primary order); a
matched secondary timestamp is a member of the secondary stream, lies
within the fixed 1 s tolerance, is at minimal distance from the primary
timestamp, and on an exact distance tie is the earlier candidate; an
unmatched row means every secondary timestamp is farther than 1 s (its
secondary columns stay undefined).  Many-to-one matching is allowed: with
primary timestamps 100 and 100.5 both rows match the single secondary
timestamp 100.  The spec's examples hold: secondary {99.1, 102} at primary
100 matches 99.1, and a sole secondary at distance 1.5 matches nothing. -/
theorem C8_fusion_merge (prim sec : List ℚ) (hp : prim ≠ []) (hs : sec ≠ []) :
    ((mergeAsofNearestTol prim sec 1).map Prod.fst = prim)
    ∧ (∀ t s : ℚ, matchWithinTol sec 1 t = some s →
        s ∈ sec ∧ |t - s| ≤ 1 ∧ (∀ x ∈ sec, |t - s| ≤ |t - x|) ∧
          (∀ x ∈ sec, |t - x| = |t - s| → s ≤ x))
    ∧ (∀ t : ℚ, matchWithinTol sec 1 t = none → ∀ x ∈ sec, 1 < |t - x|)
    ∧ mergeAsofNearestTol [100, (201:ℚ)/2] [100] 1 =
        [(100, some 100), ((201:ℚ)/2, some 100)]
    ∧ matchWithinTol [(991:ℚ)/10, 102] 1 100 = some (991/10)
    ∧ matchWithinTol [(203:ℚ)/2] 1 100 = none := by
  refine ⟨?_, fun t s h => matchWithinTol_some_spec sec 1 t s h,
    fun t h => matchWithinTol_none_spec sec 1 t h, ?_, ?_, ?_⟩
  · rw [mergeAsofNearestTol]
    exact map_fst_pair _ _
  · have hm1 : matchWithinTol [(100:ℚ)] 1 100 = some 100 := by
      have hb : maxLeOpt 100 [(100:ℚ)] = some 100 := by norm_num [maxLeOpt]
      have hf : minGeOpt 100 [(100:ℚ)] = some 100 := by norm_num [minGeOpt]
      have hnear : asofNearest [(100:ℚ)] 100 = some 100 := by
        rw [asofNearest, hb, hf]
        change (if (100:ℚ) - 100 ≤ 100 - 100 then some ((100:ℚ)) else some 100) =
          some 100
        rw [if_pos (by norm_num)]
      rw [matchWithinTol, hnear]
      change (if |(100:ℚ) - 100| ≤ 1 then some ((100:ℚ)) else none) = some 100
      rw [if_pos (by norm_num)]
    have hm2 : matchWithinTol [(100:ℚ)] 1 ((201:ℚ)/2) = some 100 := by
      have hb : maxLeOpt ((201:ℚ)/2) [(100:ℚ)] = some 100 := by norm_num [maxLeOpt]
      have hf : minGeOpt ((201:ℚ)/2) [(100:ℚ)] = none := by norm_num [minGeOpt]
      have hnear : asofNearest [(100:ℚ)] ((201:ℚ)/2) = some 100 := by
        rw [asofNearest, hb, hf]
      rw [matchWithinTol, hnear]
      have habs : |(201:ℚ)/2 - 100| = 1/2 := by
        rw [abs_of_nonneg] <;> norm_num
      change (if |(201:ℚ)/2 - 100| ≤ 1 then some ((100:ℚ)) else none) = some 100
      rw [if_pos (by rw [habs]; norm_num)]
    rw [mergeAsofNearestTol, List.map_cons, List.map_cons, List.map_nil, hm1, hm2]
  · have hb : maxLeOpt 100 [(991:ℚ)/10, 102] = some (991/10) := by
      norm_num [maxLeOpt]
    have hf : minGeOpt 100 [(991:ℚ)/10, 102] = some 102 := by
      norm_num [minGeOpt]
    have habs : |(100:ℚ) - 991/10| = 9/10 := by
      rw [abs_of_nonneg] <;> norm_num
    have hnear : asofNearest [(991:ℚ)/10, 102] 100 = some (991/10) := by
      rw [asofNearest, hb, hf]
      change (if (100:ℚ) - 991/10 ≤ 102 - 100 then some ((991:ℚ)/10) else some 102) =
        some (991/10)
      rw [if_pos (by norm_num)]
    rw [matchWithinTol, hnear]
    change (if |(100:ℚ) - 991/10| ≤ 1 then some ((991:ℚ)/10) else none) =
      some (991/10)
    rw [if_pos (by rw [habs]; norm_num)]
  · have hb : maxLeOpt 100 [(203:ℚ)/2] = none := by
      norm_num [maxLeOpt]
    have hf : minGeOpt 100 [(203:ℚ)/2] = some (203/2) := by
      norm_num [minGeOpt]
    have habs : |(100:ℚ) - 203/2| = 3/2 := by
      rw [abs_sub_comm, abs_of_nonneg] <;> norm_num
    have hnear : asofNearest [(203:ℚ)/2] 100 = some (203/2) := by
      rw [asofNearest, hb, hf]
    rw [matchWithinTol, hnear]
    change (if |(100:ℚ) - 203/2| ≤ 1 then some ((203:ℚ)/2) else none) = none
    rw [if_neg (by rw [habs]; norm_num)]

/-- Witness for C8 on the one-point streams. -/
theorem C8_fusion_merge_witness :
    (mergeAsofNearestTol [(0:ℚ)] [(0:ℚ)] 1).map Prod.fst = [(0:ℚ)] :=
  (C8_fusion_merge [0] [0] (by simp) (by simp)).1

/-! ## Claim C9 — coalescing of shared metadata columns -/

/-- Claim C9.  After matching, each of the six shared attributes (gender,
type, sleep, bmi, bmi_category, id) present under both an `_eda`-suffixed
(primary) and a `_ppg`-suffixed (secondary) column is coalesced into one
unsuffixed column holding the primary value when defined and otherwise the
secondary value, and the two suffixed source columns are dropped; in
particular bmi 22.5/23.0 coalesces to 22.5, and undefined/23.0 to 23.0. -/
theorem C9_coalesce_shared (g1 g2 t1 t2 s1 s2 b1 b2 c1 c2 i1 i2 : Option ℚ) :
    coalesceSharedColumns
      [("gender_eda", g1), ("gender_ppg", g2), ("type_eda", t1), ("type_ppg", t2),
       ("sleep_eda", s1), ("sleep_ppg", s2), ("bmi_eda", b1), ("bmi_ppg", b2),
       ("bmi_category_eda", c1), ("bmi_category_ppg", c2),
       ("id_eda", i1), ("id_ppg", i2)] =
      [("gender", coalesce g1 g2), ("type", coalesce t1 t2),
       ("sleep", coalesce s1 s2), ("bmi", coalesce b1 b2),
       ("bmi_category", coalesce c1 c2), ("id", coalesce i1 i2)]
    ∧ (∀ (v : ℚ) (s : Option ℚ), coalesce (some v) s = some v)
    ∧ (∀ s : Option ℚ, coalesce none s = s)
    ∧ coalesce (some ((45:ℚ)/2)) (some 23) = some (45/2)
    ∧ coalesce (none : Option ℚ) (some 23) = some 23 := by
  refine ⟨?_, fun v s => rfl, fun s => rfl, rfl, rfl⟩
  simp [coalesceSharedColumns, duplicateAttrs, lookupCol, dropCols, List.filter]

end PPG
